import Mathlib

/-!
Verification of the persistent-worker request/response protocol of the
backend (src/backend/server.js).

The embedding below translates the queue / worker-state machinery of
server.js into pure Lean definitions:

* module-level mutable state (`requestQueue`, `isProcessing`,
  `isModelLoaded`, `pythonProcess`) becomes the `ServerState` structure,
  threaded explicitly;
* promise settlement (`resolve`/`reject` calls) is recorded in
  `ServerState.settles` as an ordered list of calls; JavaScript promise
  semantics deliver the first settle call per handle (`firstSettle`);
* writes to the worker's standard input become `ServerState.stdinWrites`
  (one entry per `pythonProcess.stdin.write(JSON.stringify(cmd) + "\n")`,
  i.e. one newline-terminated JSON line per entry);
* `JSON.parse` is a JavaScript library routine, not repository code, so
  line handlers take the parse outcome as a function parameter
  `parse : String -> Option PredictionResult`;
* asynchronous events (stdout lines, timer expiry, process close/error,
  incoming requests) become the `Op` type, and an execution is a fold of
  `step` over a list of events (`run`).
-/

namespace SpaceGoogle

/-- A prediction job as stored in `requestQueue` by `sendPrediction`
(server.js:195).  `id` identifies the promise handle (`resolve`/`reject`
pair) created for the request; the remaining fields are the stored
`imagePath`, `modelPath` (JS `null` is `none`) and `outputDir`. -/
structure Job where
  id : Nat
  imagePath : String
  modelPath : Option String
  outputDir : String
deriving DecidableEq

/-- The worker's `RESULT:` payload as used by server.js: the code reads
`success`, `output_image`, `input_image` and adds `output_image_url`,
`input_image_url` (server.js:153-157); other payload fields pass through
unchanged and are represented by `detections`. -/
structure PredictionResult where
  success : Bool
  output_image : String
  input_image : String
  detections : List String
  output_image_url : Option String
  input_image_url : Option String
deriving DecidableEq

/-- A settle call on a pending promise handle: `resolve(result)` or
`reject(new Error(msg))`. -/
inductive Settle where
  | resolved (r : PredictionResult)
  | rejected (msg : String)
deriving DecidableEq

/-- The outbound predict message built by `processNextRequest`
(server.js:175-180): `JSON.stringify` of this record, written as one
newline-terminated line. -/
structure PredictCommand where
  action : String
  image_path : String
  model_path : String
  output_dir : String
deriving DecidableEq

/-- The module-level state of server.js, made explicit.  `hasProcess`
models `pythonProcess !== null`; `settles` records every
`resolve`/`reject` call in order; `stdinWrites` records every predict
message written to the worker; `fallbackCalls` records requests routed to
`runOneShotInference`; `respawnDelayMs` models a pending
`setTimeout(startPythonServer, delay)`. -/
structure ServerState where
  queue : List Job
  isProcessing : Bool
  isModelLoaded : Bool
  hasProcess : Bool
  stdinWrites : List PredictCommand
  settles : List (Nat × Settle)
  fallbackCalls : List Job
  respawnDelayMs : Option Nat
  logs : List String
deriving DecidableEq

/-- Node `path.basename`, restricted to POSIX separators: the last
non-empty `/`-separated component.  (Paths consisting solely of slashes
are returned unchanged; server.js never applies `basename` to those.) -/
def splitOnChar (c : Char) : List Char → List (List Char)
  | [] => [[]]
  | a :: t =>
    match splitOnChar c t with
    | [] => if a = c then [[], []] else [[a]]
    | h :: r => if a = c then [] :: h :: r else (a :: h) :: r

def basename (p : String) : String :=
  match ((splitOnChar '/' p.data).filter (fun l => !l.isEmpty)).getLast? with
  | some l => String.mk l
  | none => p

/-- JS `modelPath || 'default'` (server.js:178): `null` and the empty
string are falsy. -/
def jsDefault : Option String → String
  | none => "default"
  | some s => if s = "" then "default" else s

/-- The predict message `processNextRequest` serializes for the head job
(server.js:175-180). -/
def predictMsg (j : Job) : PredictCommand :=
  { action := "predict"
    image_path := j.imagePath
    model_path := jsDefault j.modelPath
    output_dir := j.outputDir }

/-- The URL rewriting applied to a successful result (server.js:153-158
and 258-263): sets `output_image_url` and `input_image_url` from the
basenames of the image paths; unsuccessful results are untouched. -/
def rewriteUrls (r : PredictionResult) : PredictionResult :=
  if r.success then
    { r with
      output_image_url := some ("/outputs/" ++ basename r.output_image)
      input_image_url := some ("/uploads/" ++ basename r.input_image) }
  else r

/-- `processNextRequest` (server.js:167-183): no-op when the queue is
empty, the worker is processing, or the model is not loaded; otherwise
marks the worker busy and writes the head job's predict message. -/
def processNextRequest (s : ServerState) : ServerState :=
  match s.queue with
  | [] => s
  | j :: _ =>
    if s.isProcessing || !s.isModelLoaded then s
    else { s with
           isProcessing := true
           stdinWrites := s.stdinWrites ++ [predictMsg j] }

/-- `processResult` (server.js:149-164): when the queue is non-empty,
shifts the head job, rewrites URLs on success, resolves the head job's
handle, clears the busy flag and attempts the next dispatch; with an
empty queue it does nothing. -/
def processResult (r : PredictionResult) (s : ServerState) : ServerState :=
  match s.queue with
  | [] => s
  | j :: rest =>
    processNextRequest
      { s with
        queue := rest
        settles := s.settles ++ [(j.id, Settle.resolved (rewriteUrls r))]
        isProcessing := false }

/-- `sendPrediction` (server.js:186-207), the synchronous part: when the
process handle is null or the model is not loaded, the request is routed
to the one-shot fallback; otherwise the job is appended to the queue and
a dispatch is attempted.  The 60-second timer registered here is modelled
by a later `Op.timer` event. -/
def sendPrediction (j : Job) (s : ServerState) : ServerState :=
  if !s.hasProcess || !s.isModelLoaded then
    { s with fallbackCalls := s.fallbackCalls ++ [j] }
  else
    processNextRequest { s with queue := s.queue ++ [j] }

/-- Removal of the first element satisfying `p`; this is
`requestQueue.splice(requestQueue.findIndex(p), 1)` when a match exists. -/
def removeFirst (p : Job → Bool) : List Job → List Job
  | [] => []
  | a :: t => if p a then t else a :: removeFirst p t

/-- The 60-second timer callback of the job `j` (server.js:199-205): it
looks up the first queued job whose `imagePath` equals `j.imagePath`; if
one exists it is spliced out of the queue and the handle of `j` — the job
whose timer fired, captured by the closure — is rejected with
`Inference timeout`.  If no entry matches, nothing happens. -/
def fireTimeout (j : Job) (s : ServerState) : ServerState :=
  if s.queue.any (fun r => r.imagePath == j.imagePath) then
    { s with
      queue := removeFirst (fun r => r.imagePath == j.imagePath) s.queue
      settles := s.settles ++ [(j.id, Settle.rejected "Inference timeout")] }
  else s

/-- The `READY:` branch of the stdout handler (server.js:107-109). -/
def handleReady (s : ServerState) : ServerState :=
  { s with
    isModelLoaded := true
    logs := s.logs ++ ["Python model loaded and ready"] }

/-- The catch branch of the `RESULT:` handler (server.js:115-117): a
payload `JSON.parse` rejects is logged and nothing else happens. -/
def handleBadResult (s : ServerState) : ServerState :=
  { s with logs := s.logs ++ ["Failed to parse Python result"] }

/-- The `close` handler (server.js:130-140): clears the readiness flag
and the process handle; when the exit code is not `0` (including the
`null` code of a failed spawn) a respawn is scheduled after 5000 ms. -/
def handleClose (code : Option Int) (s : ServerState) : ServerState :=
  if code = some 0 then { s with isModelLoaded := false, hasProcess := false }
  else { s with
         isModelLoaded := false
         hasProcess := false
         respawnDelayMs := some 5000 }

/-- The `error` handler (server.js:142-145): logs the spawn failure and
clears the readiness flag; the process handle is not touched here. -/
def handleSpawnError (s : ServerState) : ServerState :=
  { s with
    isModelLoaded := false
    logs := s.logs ++ ["Failed to start Python process"] }

/-- Asynchronous events delivered to the server: worker stdout lines
(`ready`, `result` with its parse outcome, other diagnostic lines),
incoming requests (`send`), per-job timer expiry (`timer`), and process
lifecycle events (`close`, `spawnErr`). -/
inductive Op where
  | ready
  | result (r : Option PredictionResult)
  | errLine (m : String)
  | send (j : Job)
  | timer (j : Job)
  | close (code : Option Int)
  | spawnErr
deriving DecidableEq

def step (o : Op) (s : ServerState) : ServerState :=
  match o with
  | Op.ready => handleReady s
  | Op.result (some r) => processResult r s
  | Op.result none => handleBadResult s
  | Op.errLine m => { s with logs := s.logs ++ [m] }
  | Op.send j => sendPrediction j s
  | Op.timer j => fireTimeout j s
  | Op.close c => handleClose c s
  | Op.spawnErr => handleSpawnError s

def run : List Op → ServerState → ServerState
  | [], s => s
  | o :: t, s => run t (step o s)

/-- JS `String.prototype.startsWith`, over code points. -/
def strStartsWith (s p : String) : Bool := p.data.isPrefixOf s.data

/-- JS `String.prototype.substring(n)`, over code points. -/
def strDrop (s : String) (n : Nat) : String := String.mk (s.data.drop n)

/-- The per-line stdout dispatcher (server.js:106-123).  `parse` stands
for `JSON.parse` specialised to `RESULT:` payloads; a `none` outcome is
the thrown-and-caught parse failure. -/
def handleLine (parse : String → Option PredictionResult)
    (line : String) (s : ServerState) : ServerState :=
  if strStartsWith line "READY:" then handleReady s
  else if strStartsWith line "RESULT:" then
    match parse (strDrop line 7) with
    | some r => processResult r s
    | none => handleBadResult s
  else if strStartsWith line "ERROR:" then
    { s with logs := s.logs ++ ["Python error: " ++ strDrop line 6] }
  else
    { s with logs := s.logs ++ ["Python: " ++ line] }

/-- JS `String.prototype.trim`, over code points. -/
def trimChars (l : List Char) : List Char :=
  ((l.dropWhile Char.isWhitespace).reverse.dropWhile Char.isWhitespace).reverse

/-- The JSON-line scan of `runOneShotInference` (server.js:243-250): the
last line of the trimmed stdout whose trimmed form begins with an opening
brace, trimmed. -/
def lastJsonLine (out : String) : Option String :=
  ((((splitOnChar '\n' (trimChars out.data)).map trimChars).filter
      (fun l => match l with
        | c :: _ => c = '\x7b'
        | [] => false)).getLast?).map String.mk

/-- The `close`-handler outcome of `runOneShotInference`
(server.js:237-269) as a pure function of the exit code, the captured
stdout and stderr, and the `JSON.parse` outcome on the located JSON line:
nonzero (or null) exit rejects with the captured stderr (or
`Inference failed` when stderr is empty); a missing JSON line or a parse
failure rejects with `Failed to parse inference result`; otherwise the
parsed result is resolved after URL rewriting. -/
def oneShotOutcome (parse : String → Option PredictionResult)
    (code : Option Int) (out err : String) : Except String PredictionResult :=
  if code ≠ some 0 then
    Except.error (if err = "" then "Inference failed" else err)
  else
    match lastJsonLine out with
    | none => Except.error "Failed to parse inference result"
    | some l =>
      match parse l with
      | none => Except.error "Failed to parse inference result"
      | some r => Except.ok (rewriteUrls r)

/-- True when a settle call for handle `i` has been made. -/
def hasSettle (i : Nat) (l : List (Nat × Settle)) : Bool :=
  l.any (fun e => e.1 == i)

/-- The outcome a JS promise delivers: the first settle call for its
handle; later calls on a settled promise are no-ops. -/
def firstSettle (i : Nat) (l : List (Nat × Settle)) : Option Settle :=
  (l.find? (fun e => e.1 == i)).map (fun e => e.2)

/-- The initial Ready idle state: worker spawned, model loaded, queue
empty. -/
def readyIdle : ServerState :=
  { queue := []
    isProcessing := false
    isModelLoaded := true
    hasProcess := true
    stdinWrites := []
    settles := []
    fallbackCalls := []
    respawnDelayMs := none
    logs := [] }

/-- True for every event except the worker's `READY:` line. -/
def opNotReady : Op → Bool
  | Op.ready => false
  | _ => true

/-- The jobs submitted by a list of events, in order. -/
def sentJobs : List Op → List Job
  | [] => []
  | Op.send j :: t => j :: sentJobs t
  | _ :: t => sentJobs t

/-- The successfully parsed RESULT payloads of a list of events, in
order. -/
def resultsOf : List Op → List PredictionResult
  | [] => []
  | Op.result (some r) :: t => r :: resultsOf t
  | _ :: t => resultsOf t

/-- `okSched ops p`: `ops` consists only of job submissions and parsed
worker results, and — starting from `p` jobs already queued — the worker
never emits a result when no job is outstanding (one RESULT per
dispatched job, in dispatch order). -/
def okSched : List Op → Nat → Bool
  | [], _ => true
  | Op.send _ :: t, p => okSched t (p + 1)
  | Op.result (some _) :: t, p + 1 => okSched t p
  | _, _ => false

/-- The settle-call entry produced when a job meets its result. -/
def resolvedEntry (pr : Job × PredictionResult) : Nat × Settle :=
  (pr.1.id, Settle.resolved (rewriteUrls pr.2))

/-- Events that neither submit nor time out a job colliding with `j`:
any other submission or timer uses a different handle id and a different
image path.  (Handle ids are distinct by construction — one per
`sendPrediction` promise — and the amended timeout claim additionally
assumes `j`'s image path is not shared.) -/
def avoids (j : Job) : Op → Bool
  | Op.send k => !(k.id == j.id) && !(k.imagePath == j.imagePath)
  | Op.timer k => !(k.id == j.id) && !(k.imagePath == j.imagePath)
  | _ => true

/-- Every job in `l` differs from `j` in both handle id and image path. -/
def sidesClear (j : Job) (l : List Job) : Prop :=
  ∀ a ∈ l, (a.id == j.id) = false ∧ (a.imagePath == j.imagePath) = false

/-- Job `j` is pending: it sits in the queue exactly once, no other
queued job shares its id or image path, and no settle call has touched
its handle. -/
def pendingUnique (j : Job) (s : ServerState) : Prop :=
  (∃ q₁ q₂, s.queue = q₁ ++ j :: q₂ ∧ sidesClear j (q₁ ++ q₂))
  ∧ hasSettle j.id s.settles = false

/-- Job `j` is done: its handle was first settled by a resolution and no
queued job shares its id or image path any more. -/
def resolvedGone (j : Job) (s : ServerState) : Prop :=
  sidesClear j s.queue
  ∧ ∃ r, firstSettle j.id s.settles = some (Settle.resolved r)

/-- Two jobs sharing the same uploaded image path, used to exercise the
timeout callback's path-based queue lookup. -/
def cxA : Job := ⟨1, "img.jpg", none, "o"⟩

def cxB : Job := ⟨2, "img.jpg", none, "o"⟩

/-- A realizable schedule: jobs A and B (same image path) are enqueued
while the worker is Ready, A's result arrives, then A's 60-second timer
fires (timers are never cancelled), then B's timer fires. -/
def cxTrace : List Op :=
  [Op.send cxA, Op.send cxB,
   Op.result (some ⟨true, "/x/o1.jpg", "/x/img.jpg", [], none, none⟩),
   Op.timer cxA, Op.timer cxB]

example : basename "/x/out1.jpg" = "out1.jpg" := by decide

example : (sendPrediction ⟨1, "a.jpg", none, "o"⟩ readyIdle).stdinWrites
    = [⟨"predict", "a.jpg", "default", "o"⟩] := by decide

/-! ### Helper lemmas about the queue operations -/

lemma removeFirst_skip (p : Job → Bool) (q₁ : List Job) (a : Job) (q₂ : List Job)
    (h₁ : ∀ b ∈ q₁, p b = false) (ha : p a = true) :
    removeFirst p (q₁ ++ a :: q₂) = q₁ ++ q₂ := by
  induction q₁ with
  | nil => simp [removeFirst, ha]
  | cons b t ih =>
    have hb : p b = false := h₁ b (by simp)
    have ih' := ih (fun x hx => h₁ x (by simp [hx]))
    simp only [List.cons_append, removeFirst, hb, Bool.false_eq_true, if_false,
      List.append_eq]
    rw [ih']

lemma removeFirst_subset (p : Job → Bool) (l : List Job) :
    ∀ a ∈ removeFirst p l, a ∈ l := by
  induction l with
  | nil => simp [removeFirst]
  | cons b t ih =>
    intro a ha
    by_cases hb : p b = true
    · simp only [removeFirst, hb, if_true] at ha
      exact List.mem_cons_of_mem _ ha
    · simp only [removeFirst, hb, if_false] at ha
      rcases List.mem_cons.mp ha with h | h
      · exact h ▸ List.mem_cons_self _ _
      · exact List.mem_cons_of_mem _ (ih a h)

lemma removeFirst_mid (p : Job → Bool) (q₁ : List Job) (j : Job) (q₂ : List Job)
    (hj : p j = false) :
    ∃ r₁ r₂, removeFirst p (q₁ ++ j :: q₂) = r₁ ++ j :: r₂
      ∧ ∀ a ∈ r₁ ++ r₂, a ∈ q₁ ++ q₂ := by
  induction q₁ with
  | nil =>
    refine ⟨[], removeFirst p q₂, ?_, ?_⟩
    · simp [removeFirst, hj]
    · intro a ha
      simp only [List.nil_append] at ha ⊢
      exact removeFirst_subset p q₂ a ha
  | cons b t ih =>
    by_cases hb : p b = true
    · refine ⟨t, q₂, ?_, ?_⟩
      · simp [removeFirst, hb]
      · intro a ha
        exact List.mem_cons_of_mem b ha
    · have hb' : p b = false := by simpa using hb
      obtain ⟨r₁, r₂, he, hsub⟩ := ih
      refine ⟨b :: r₁, r₂, ?_, ?_⟩
      · simp only [List.cons_append, removeFirst, hb', Bool.false_eq_true, if_false,
          List.append_eq]
        rw [he]
      · intro a ha
        simp only [List.cons_append, List.mem_cons] at ha ⊢
        rcases ha with h | h
        · exact Or.inl h
        · exact Or.inr (hsub a h)

lemma processNextRequest_queue (s : ServerState) :
    (processNextRequest s).queue = s.queue
  ∧ (processNextRequest s).settles = s.settles
  ∧ (processNextRequest s).isModelLoaded = s.isModelLoaded
  ∧ (processNextRequest s).hasProcess = s.hasProcess := by
  unfold processNextRequest
  split
  · exact ⟨rfl, rfl, rfl, rfl⟩
  · split
    · exact ⟨rfl, rfl, rfl, rfl⟩
    · exact ⟨rfl, rfl, rfl, rfl⟩

lemma processNextRequest_busy (s : ServerState) (hp : s.isProcessing = true) :
    processNextRequest s = s := by
  unfold processNextRequest
  split
  · rfl
  · simp [hp]

lemma processNextRequest_notLoaded (s : ServerState) (h : s.isModelLoaded = false) :
    processNextRequest s = s := by
  unfold processNextRequest
  split
  · rfl
  · simp [h]

lemma firstSettle_append_of_some (i : Nat) (l l' : List (Nat × Settle)) (x : Settle)
    (h : firstSettle i l = some x) : firstSettle i (l ++ l') = some x := by
  unfold firstSettle at h ⊢
  rw [List.find?_append]
  rcases hf : l.find? (fun e => e.1 == i) with _ | e
  · rw [hf] at h; simp at h
  · rw [hf] at h ⊢
    exact h

lemma firstSettle_append_self (i : Nat) (l : List (Nat × Settle)) (x : Settle)
    (h : hasSettle i l = false) : firstSettle i (l ++ [(i, x)]) = some x := by
  unfold firstSettle
  rw [List.find?_append]
  have hn : l.find? (fun e => e.1 == i) = none := by
    rw [List.find?_eq_none]
    intro e he
    have := List.any_eq_false.mp h e he
    simpa using this
  rw [hn]
  simp [List.find?]

lemma firstSettle_none_of_not_hasSettle (i : Nat) (l : List (Nat × Settle))
    (h : hasSettle i l = false) : firstSettle i l = none := by
  unfold firstSettle
  have hn : l.find? (fun e => e.1 == i) = none := by
    rw [List.find?_eq_none]
    intro e he
    have := List.any_eq_false.mp h e he
    simpa using this
  rw [hn]; rfl

lemma hasSettle_append_single (i m : Nat) (l : List (Nat × Settle)) (x : Settle)
    (hm : (m == i) = false) (h : hasSettle i l = false) :
    hasSettle i (l ++ [(m, x)]) = false := by
  unfold hasSettle at h ⊢
  rw [List.any_append, h]
  simpa using hm

/-! ### Claim theorems: result processing, dispatch, timers -/

/-- Claim C10: a well-formed RESULT payload arriving while the request
queue is empty is silently discarded — `processResult` leaves the state
(queue, settles, busy and readiness flags, everything) unchanged. -/
theorem processResult_emptyQueue (r : PredictionResult) (s : ServerState)
    (hq : s.queue = []) : processResult r s = s := by
  unfold processResult
  rw [hq]

theorem processResult_emptyQueue_witness :
    processResult ⟨true, "/x/o.jpg", "/x/i.jpg", [], none, none⟩ readyIdle
      = readyIdle :=
  processResult_emptyQueue ⟨true, "/x/o.jpg", "/x/i.jpg", [], none, none⟩
    readyIdle rfl

/-- Claim C2: on a parsed RESULT payload with a non-empty queue, the head
job is removed, its handle is resolved with the URL-rewritten result, the
busy flag is cleared, and dispatch of the new head is attempted
immediately; for a successful result the rewritten URLs are
`/outputs/` plus the output basename and `/uploads/` plus the input
basename. -/
theorem processResult_spec (r : PredictionResult) (s : ServerState)
    (j : Job) (rest : List Job) (hq : s.queue = j :: rest) :
    processResult r s
        = processNextRequest
            { s with
              queue := rest
              isProcessing := false
              settles := s.settles ++ [(j.id, Settle.resolved (rewriteUrls r))] }
  ∧ (r.success = true →
      (rewriteUrls r).output_image_url
          = some ("/outputs/" ++ basename r.output_image)
      ∧ (rewriteUrls r).input_image_url
          = some ("/uploads/" ++ basename r.input_image)) := by
  constructor
  · unfold processResult
    rw [hq]
  · intro hs
    unfold rewriteUrls
    rw [hs]
    exact ⟨rfl, rfl⟩

theorem processResult_spec_witness :
    processResult ⟨true, "/x/out1.jpg", "/x/cat.jpg", [], none, none⟩
        { readyIdle with queue := [⟨1, "cat.jpg", none, "o"⟩], isProcessing := true }
      = processNextRequest
          { readyIdle with
            queue := []
            isProcessing := false
            settles := [(1, Settle.resolved
              (rewriteUrls ⟨true, "/x/out1.jpg", "/x/cat.jpg", [], none, none⟩))] }
  ∧ (rewriteUrls ⟨true, "/x/out1.jpg", "/x/cat.jpg", [], none, none⟩).output_image_url
      = some "/outputs/out1.jpg" := by
  have h := processResult_spec ⟨true, "/x/out1.jpg", "/x/cat.jpg", [], none, none⟩
    { readyIdle with queue := [⟨1, "cat.jpg", none, "o"⟩], isProcessing := true }
    ⟨1, "cat.jpg", none, "o"⟩ [] rfl
  refine ⟨by simpa using h.1, ?_⟩
  have h2 := (h.2 rfl).1
  rw [h2]
  decide

/-- Claim C4: `processNextRequest` is a no-op (state strictly unchanged)
when the queue is empty, the worker is busy, or the model is not loaded;
otherwise it marks the worker busy and writes exactly one predict message
for the head job carrying its image path, its model path (or `default`),
and its output directory. -/
theorem processNextRequest_spec (s : ServerState) :
    ((s.queue = [] ∨ s.isProcessing = true ∨ s.isModelLoaded = false) →
        processNextRequest s = s)
  ∧ (∀ j rest, s.queue = j :: rest → s.isProcessing = false →
        s.isModelLoaded = true →
        processNextRequest s
          = { s with
              isProcessing := true
              stdinWrites := s.stdinWrites ++ [predictMsg j] }
        ∧ predictMsg j
            = ⟨"predict", j.imagePath, jsDefault j.modelPath, j.outputDir⟩) := by
  constructor
  · rintro (hq | hp | hm)
    · unfold processNextRequest
      rw [hq]
    · exact processNextRequest_busy s hp
    · exact processNextRequest_notLoaded s hm
  · intro j rest hq hp hm
    constructor
    · unfold processNextRequest
      rw [hq]
      simp [hp, hm]
    · rfl

theorem processNextRequest_spec_witness :
    processNextRequest readyIdle = readyIdle
  ∧ processNextRequest { readyIdle with queue := [⟨1, "cat.jpg", none, "o"⟩] }
      = { readyIdle with
          queue := [⟨1, "cat.jpg", none, "o"⟩]
          isProcessing := true
          stdinWrites := [⟨"predict", "cat.jpg", "default", "o"⟩] } := by
  constructor
  · exact (processNextRequest_spec readyIdle).1 (Or.inl rfl)
  · have h := (processNextRequest_spec
      { readyIdle with queue := [⟨1, "cat.jpg", none, "o"⟩] }).2
      ⟨1, "cat.jpg", none, "o"⟩ [] rfl rfl rfl
    rw [h.1]
    decide

/-- Claim C9: when job `j`'s 60-second timer fires, the queue entry
removed is the earliest queued job whose image path equals `j`'s image
path (here `a`, behind the non-matching segment `q₁`), while the handle
rejected with `Inference timeout` is that of `j` itself — the job whose
timer fired — even when `a` is a different job. -/
theorem fireTimeout_spec (s : ServerState) (j a : Job) (q₁ q₂ : List Job)
    (hq : s.queue = q₁ ++ a :: q₂)
    (h₁ : ∀ b ∈ q₁, (b.imagePath == j.imagePath) = false)
    (ha : (a.imagePath == j.imagePath) = true) :
    (fireTimeout j s).queue = q₁ ++ q₂
  ∧ (fireTimeout j s).settles
      = s.settles ++ [(j.id, Settle.rejected "Inference timeout")] := by
  have hany : s.queue.any (fun r => r.imagePath == j.imagePath) = true := by
    rw [hq]
    exact List.any_eq_true.mpr ⟨a, by simp, ha⟩
  unfold fireTimeout
  rw [if_pos hany]
  refine ⟨?_, rfl⟩
  rw [hq]
  exact removeFirst_skip _ q₁ a q₂ h₁ ha

theorem fireTimeout_spec_witness :
    (fireTimeout ⟨2, "img.jpg", none, "o"⟩
        { readyIdle with
          queue := [⟨1, "img.jpg", none, "o"⟩, ⟨2, "img.jpg", none, "o"⟩] }).queue
      = [⟨2, "img.jpg", none, "o"⟩]
  ∧ (fireTimeout ⟨2, "img.jpg", none, "o"⟩
        { readyIdle with
          queue := [⟨1, "img.jpg", none, "o"⟩, ⟨2, "img.jpg", none, "o"⟩] }).settles
      = [(2, Settle.rejected "Inference timeout")] := by
  have h := fireTimeout_spec
    { readyIdle with
      queue := [⟨1, "img.jpg", none, "o"⟩, ⟨2, "img.jpg", none, "o"⟩] }
    ⟨2, "img.jpg", none, "o"⟩ ⟨1, "img.jpg", none, "o"⟩
    [] [⟨2, "img.jpg", none, "o"⟩] rfl (by intro b hb; simp at hb) (by decide)
  exact ⟨by simpa using h.1, by simpa using h.2⟩

/-! ### Claim C6: malformed RESULT payloads -/

lemma startsWith_result_not_ready (line : String)
    (h : strStartsWith line "RESULT:" = true) :
    strStartsWith line "READY:" = false := by
  unfold strStartsWith at h ⊢
  rcases List.isPrefixOf_iff_prefix.mp h with ⟨t, ht⟩
  rw [← ht]
  rfl

/-- Claim C6: a `RESULT:` line whose payload fails to parse as JSON does
not crash the handler — it only appends a log entry; the queue, the
settle list, and the worker flags are untouched and the head job is not
resolved. -/
theorem handleLine_badResult (parse : String → Option PredictionResult)
    (line : String) (s : ServerState)
    (hres : strStartsWith line "RESULT:" = true)
    (hparse : parse (strDrop line 7) = none) :
    handleLine parse line s
      = { s with logs := s.logs ++ ["Failed to parse Python result"] } := by
  have hready := startsWith_result_not_ready line hres
  unfold handleLine
  rw [hready, hres]
  simp only [Bool.false_eq_true, if_false, if_true, hparse]
  rfl

theorem handleLine_badResult_witness :
    handleLine (fun _ => none) "RESULT:oops" readyIdle
      = { readyIdle with logs := ["Failed to parse Python result"] } := by
  have h := handleLine_badResult (fun _ => none) "RESULT:oops" readyIdle
    (by decide) rfl
  simpa using h

/-! ### Claim C7: the one-shot fallback -/

/-- Claim C7: when the worker process handle is null or the model is not
loaded, `sendPrediction` routes the request to the one-shot fallback (no
queueing, no dispatch); the one-shot outcome rejects with the captured
stderr (or a default message) on nonzero or null exit status, rejects
with a parse error when no output line begins with an opening brace or
when that line fails to parse, resolves with the URL-rewritten parsed
result otherwise, and in every case yields either a result or an error —
never an unhandled failure. -/
theorem oneShot_fallback_spec (s : ServerState) (j : Job)
    (parse : String → Option PredictionResult) (code : Option Int)
    (out err : String) :
    ((s.hasProcess = false ∨ s.isModelLoaded = false) →
        step (Op.send j) s = { s with fallbackCalls := s.fallbackCalls ++ [j] })
  ∧ (code ≠ some 0 →
        oneShotOutcome parse code out err
          = Except.error (if err = "" then "Inference failed" else err))
  ∧ (code = some 0 → lastJsonLine out = none →
        oneShotOutcome parse code out err
          = Except.error "Failed to parse inference result")
  ∧ (∀ l r, code = some 0 → lastJsonLine out = some l → parse l = some r →
        oneShotOutcome parse code out err = Except.ok (rewriteUrls r))
  ∧ ((∃ e, oneShotOutcome parse code out err = Except.error e)
      ∨ (∃ r, oneShotOutcome parse code out err = Except.ok r)) := by
  refine ⟨?_, ?_, ?_, ?_, ?_⟩
  · rintro (hh | hm)
    · show sendPrediction j s = _
      unfold sendPrediction
      rw [hh]
      simp
    · show sendPrediction j s = _
      unfold sendPrediction
      rw [hm]
      simp
  · intro hc
    unfold oneShotOutcome
    rw [if_pos hc]
  · intro hc hj
    unfold oneShotOutcome
    rw [if_neg (by simp [hc]), hj]
  · intro l r hc hj hp
    unfold oneShotOutcome
    rw [if_neg (by simp [hc])]
    simp only [hj, hp]
  · unfold oneShotOutcome
    by_cases hc : code ≠ some 0
    · rw [if_pos hc]
      exact Or.inl ⟨_, rfl⟩
    · rw [if_neg hc]
      rcases hj : lastJsonLine out with _ | l
      · simp only [hj]
        exact Or.inl ⟨_, rfl⟩
      · simp only [hj]
        rcases hp : parse l with _ | r
        · simp only [hp]
          exact Or.inl ⟨_, rfl⟩
        · simp only [hp]
          exact Or.inr ⟨_, rfl⟩

theorem oneShot_fallback_spec_witness :
    step (Op.send ⟨3, "b.jpg", none, "o"⟩)
        { readyIdle with isModelLoaded := false }
      = { readyIdle with
          isModelLoaded := false
          fallbackCalls := [⟨3, "b.jpg", none, "o"⟩] }
  ∧ oneShotOutcome (fun _ => none) (some 1) "" "boom"
      = Except.error "boom"
  ∧ oneShotOutcome (fun _ => some ⟨false, "", "", [], none, none⟩) (some 0)
        "noise\n\x7b\x7d" ""
      = Except.ok (rewriteUrls ⟨false, "", "", [], none, none⟩) := by
  refine ⟨?_, ?_, ?_⟩
  · have h := (oneShot_fallback_spec { readyIdle with isModelLoaded := false }
      ⟨3, "b.jpg", none, "o"⟩ (fun _ => none) (some 1) "" "").1 (Or.inr rfl)
    simpa using h
  · have h := (oneShot_fallback_spec readyIdle ⟨3, "b.jpg", none, "o"⟩
      (fun _ => none) (some 1) "" "boom").2.1 (by decide)
    rw [h]
    simp
  · have h := (oneShot_fallback_spec readyIdle ⟨3, "b.jpg", none, "o"⟩
      (fun _ => some ⟨false, "", "", [], none, none⟩) (some 0)
      "noise\n\x7b\x7d" "").2.2.2.1 "\x7b\x7d" ⟨false, "", "", [], none, none⟩
      rfl (by decide) rfl
    exact h

/-! ### Claim C8: spawn failure -/

/-- Claim C8: when spawning the worker fails, the `error` handler clears
the readiness flag and logs the condition without settling any handle;
the subsequent `close` event (Node delivers it with a null exit code
after a failed spawn) clears the process handle and schedules a respawn
after the fixed 5000 ms backoff, so the spawn failure is retried. -/
theorem spawnFailure_spec (s : ServerState) :
    (handleSpawnError s).isModelLoaded = false
  ∧ (handleSpawnError s).logs = s.logs ++ ["Failed to start Python process"]
  ∧ (handleSpawnError s).settles = s.settles
  ∧ (handleClose none (handleSpawnError s)).isModelLoaded = false
  ∧ (handleClose none (handleSpawnError s)).hasProcess = false
  ∧ (handleClose none (handleSpawnError s)).respawnDelayMs = some 5000
  ∧ (handleClose none (handleSpawnError s)).queue = s.queue
  ∧ (handleClose none (handleSpawnError s)).settles = s.settles := by
  unfold handleSpawnError handleClose
  simp

/-! ### Claim C5: worker crash, respawn and dispatch freeze -/

lemma step_frozen (o : Op) (s : ServerState) (h : s.isModelLoaded = false)
    (ho : opNotReady o = true) :
    (step o s).stdinWrites = s.stdinWrites
  ∧ (step o s).isModelLoaded = false := by
  cases o with
  | ready => simp [opNotReady] at ho
  | result r =>
    cases r with
    | none => exact ⟨rfl, h⟩
    | some r' =>
      simp only [step]
      unfold processResult
      split
      · exact ⟨rfl, h⟩
      · rw [processNextRequest_notLoaded _ (by simpa using h)]
        exact ⟨rfl, h⟩
  | errLine m => exact ⟨rfl, h⟩
  | send j =>
    simp only [step]
    unfold sendPrediction
    rw [if_pos (by simp [h])]
    exact ⟨rfl, h⟩
  | timer j =>
    simp only [step]
    unfold fireTimeout
    split
    · exact ⟨rfl, h⟩
    · exact ⟨rfl, h⟩
  | close c =>
    simp only [step]
    unfold handleClose
    split
    · exact ⟨rfl, rfl⟩
    · exact ⟨rfl, rfl⟩
  | spawnErr => exact ⟨rfl, rfl⟩

lemma run_frozen (ops : List Op) : ∀ s : ServerState,
    s.isModelLoaded = false → ops.all opNotReady = true →
    (run ops s).stdinWrites = s.stdinWrites
  ∧ (run ops s).isModelLoaded = false := by
  induction ops with
  | nil => intro s h _; exact ⟨rfl, h⟩
  | cons o t ih =>
    intro s h hall
    rw [List.all_cons, Bool.and_eq_true] at hall
    obtain ⟨hw1, hm1⟩ := step_frozen o s h hall.1
    obtain ⟨hw2, hm2⟩ := ih (step o s) hm1 hall.2
    exact ⟨hw2.trans hw1, hm2⟩

/-- Claim C5: a worker exit with a nonzero (or null) status clears the
readiness flag and the process handle, schedules a respawn after the
fixed 5000 ms delay, leaves the queue and all pending handles untouched
(neither requeued nor failed), and as long as no `READY:` event arrives
nothing more is written to the worker — dispatch is frozen; a `READY:`
event restores the Ready state. -/
theorem workerCrash_spec (s : ServerState) (code : Option Int)
    (hc : code ≠ some 0) :
    (handleClose code s).isModelLoaded = false
  ∧ (handleClose code s).hasProcess = false
  ∧ (handleClose code s).respawnDelayMs = some 5000
  ∧ (handleClose code s).queue = s.queue
  ∧ (handleClose code s).settles = s.settles
  ∧ (∀ ops : List Op, ops.all opNotReady = true →
        (run ops (handleClose code s)).stdinWrites
            = (handleClose code s).stdinWrites
      ∧ (run ops (handleClose code s)).isModelLoaded = false)
  ∧ (∀ w : ServerState, (step Op.ready w).isModelLoaded = true) := by
  have hm : (handleClose code s).isModelLoaded = false := by
    unfold handleClose
    split
    · rfl
    · rfl
  refine ⟨hm, ?_, ?_, ?_, ?_, ?_, ?_⟩
  · unfold handleClose
    split
    · rfl
    · rfl
  · unfold handleClose
    rw [if_neg hc]
  · unfold handleClose
    split
    · rfl
    · rfl
  · unfold handleClose
    split
    · rfl
    · rfl
  · intro ops hall
    exact run_frozen ops (handleClose code s) hm hall
  · intro w
    rfl

theorem workerCrash_spec_witness :
    (handleClose none readyIdle).respawnDelayMs = some 5000
  ∧ (handleClose none readyIdle).queue = []
  ∧ (run [Op.send ⟨9, "w.jpg", none, "o"⟩, Op.result none]
        (handleClose none readyIdle)).stdinWrites = [] := by
  have h := workerCrash_spec readyIdle none (by decide)
  refine ⟨h.2.2.1, by rw [h.2.2.2.1]; rfl, ?_⟩
  have h2 := h.2.2.2.2.2.1 [Op.send ⟨9, "w.jpg", none, "o"⟩, Op.result none]
    (by decide)
  rw [h2.1]
  decide

/-! ### Claim C1: FIFO delivery under in-order worker replies -/

lemma processNextRequest_fields (s : ServerState)
    (hm : s.isModelLoaded = true)
    (hbusy : s.isProcessing = true → s.queue.isEmpty = false) :
    (processNextRequest s).queue = s.queue
  ∧ (processNextRequest s).settles = s.settles
  ∧ (processNextRequest s).isModelLoaded = s.isModelLoaded
  ∧ (processNextRequest s).hasProcess = s.hasProcess
  ∧ (processNextRequest s).isProcessing = !s.queue.isEmpty := by
  rcases hq : s.queue with _ | ⟨j, t⟩
  · have hp : s.isProcessing = false := by
      cases hip : s.isProcessing
      · rfl
      · have := hbusy hip
        rw [hq] at this
        simp at this
    refine ⟨?_, ?_, ?_, ?_, ?_⟩ <;> simp [processNextRequest, hq, hp]
  · cases hip : s.isProcessing
    · refine ⟨?_, ?_, ?_, ?_, ?_⟩ <;> simp [processNextRequest, hq, hip, hm]
    · rw [processNextRequest_busy s hip]
      exact ⟨hq, rfl, rfl, rfl, by rw [hip]; rfl⟩

lemma run_okSched (ops : List Op) : ∀ s : ServerState,
    okSched ops s.queue.length = true →
    s.isModelLoaded = true → s.hasProcess = true →
    s.isProcessing = !s.queue.isEmpty →
    (run ops s).settles
        = s.settles
          ++ (((s.queue ++ sentJobs ops).zip (resultsOf ops)).map resolvedEntry)
  ∧ (run ops s).queue
        = (s.queue ++ sentJobs ops).drop (resultsOf ops).length := by
  induction ops with
  | nil =>
    intro s _ _ _ _
    simp [run, sentJobs, resultsOf]
  | cons o t ih =>
    intro s hok hm hh hp
    cases o with
    | send j =>
      have hok' : okSched t (s.queue.length + 1) = true := by
        simpa [okSched] using hok
      simp only [run, step]
      have hsp : sendPrediction j s
          = processNextRequest { s with queue := s.queue ++ [j] } := by
        unfold sendPrediction
        rw [if_neg (by simp [hm, hh])]
      rw [hsp]
      have f := processNextRequest_fields { s with queue := s.queue ++ [j] }
        (by simpa using hm) (by intro _; cases s.queue <;> rfl)
      obtain ⟨h1, h2⟩ := ih (processNextRequest { s with queue := s.queue ++ [j] })
        (by rw [f.1]; simpa using hok')
        (by rw [f.2.2.1]; simpa using hm)
        (by rw [f.2.2.2.1]; simpa using hh)
        (by rw [f.2.2.2.2, f.1])
      constructor
      · rw [h1, f.2.1, f.1]
        simp [sentJobs, resultsOf, List.append_assoc]
      · rw [h2, f.1]
        simp [sentJobs, resultsOf, List.append_assoc]
    | result r =>
      cases r with
      | some r' =>
        rcases hq : s.queue with _ | ⟨j0, rest⟩
        · rw [hq] at hok
          simp [okSched] at hok
        · have hok' : okSched t rest.length = true := by
            rw [hq] at hok
            simpa [okSched] using hok
          simp only [run, step]
          have hpr : processResult r' s
              = processNextRequest
                  { s with
                    queue := rest
                    settles := s.settles
                      ++ [(j0.id, Settle.resolved (rewriteUrls r'))]
                    isProcessing := false } := by
            unfold processResult
            rw [hq]
          rw [hpr]
          have f := processNextRequest_fields
            { s with
              queue := rest
              settles := s.settles ++ [(j0.id, Settle.resolved (rewriteUrls r'))]
              isProcessing := false }
            (by simpa using hm) (by intro hx; simp at hx)
          obtain ⟨h1, h2⟩ := ih (processNextRequest
              { s with
                queue := rest
                settles := s.settles ++ [(j0.id, Settle.resolved (rewriteUrls r'))]
                isProcessing := false })
            (by rw [f.1]; simpa using hok')
            (by rw [f.2.2.1]; simpa using hm)
            (by rw [f.2.2.2.1]; simpa using hh)
            (by rw [f.2.2.2.2, f.1])
          constructor
          · rw [h1, f.2.1, f.1]
            simp [sentJobs, resultsOf, resolvedEntry, List.append_assoc]
          · rw [h2, f.1]
            simp [sentJobs, resultsOf]
      | none =>
        rcases hq : s.queue with _ | ⟨j0, rest⟩ <;> rw [hq] at hok <;>
          simp [okSched] at hok
    | ready =>
      rcases hq : s.queue with _ | ⟨j0, rest⟩ <;> rw [hq] at hok <;>
        simp [okSched] at hok
    | errLine m =>
      rcases hq : s.queue with _ | ⟨j0, rest⟩ <;> rw [hq] at hok <;>
        simp [okSched] at hok
    | timer j =>
      rcases hq : s.queue with _ | ⟨j0, rest⟩ <;> rw [hq] at hok <;>
        simp [okSched] at hok
    | close c =>
      rcases hq : s.queue with _ | ⟨j0, rest⟩ <;> rw [hq] at hok <;>
        simp [okSched] at hok
    | spawnErr =>
      rcases hq : s.queue with _ | ⟨j0, rest⟩ <;> rw [hq] at hok <;>
        simp [okSched] at hok

/-- Claim C1: starting from the Ready idle state, for any valid schedule
of job submissions interleaved with in-order parsed worker results (one
RESULT per dispatched job, never when no job is outstanding), with as
many results as submissions, exactly N settle calls are made, all of them
resolutions, pairing the i-th submitted job with the i-th worker result
in submission order, and the queue is drained. -/
theorem sendPrediction_fifo (ops : List Op) (s : ServerState)
    (hok : okSched ops 0 = true)
    (hq : s.queue = []) (hm : s.isModelLoaded = true)
    (hh : s.hasProcess = true) (hp : s.isProcessing = false)
    (hs : s.settles = [])
    (hlen : (resultsOf ops).length = (sentJobs ops).length) :
    (run ops s).settles = ((sentJobs ops).zip (resultsOf ops)).map resolvedEntry
  ∧ (run ops s).settles.length = (sentJobs ops).length
  ∧ (run ops s).queue = [] := by
  obtain ⟨h1, h2⟩ := run_okSched ops s (by rw [hq]; exact hok) hm hh
    (by rw [hq, hp]; rfl)
  have h1' : (run ops s).settles
      = ((sentJobs ops).zip (resultsOf ops)).map resolvedEntry := by
    rw [h1, hq, hs]
    simp
  refine ⟨h1', ?_, ?_⟩
  · rw [h1']
    simp [hlen]
  · rw [h2, hq, hlen]
    simp

theorem sendPrediction_fifo_witness :
    (run [Op.send ⟨1, "cat.jpg", none, "o"⟩,
          Op.send ⟨2, "dog.jpg", none, "o"⟩,
          Op.result (some ⟨true, "/x/o1.jpg", "/x/cat.jpg", [], none, none⟩),
          Op.result (some ⟨true, "/x/o2.jpg", "/x/dog.jpg", [], none, none⟩)]
        readyIdle).settles
      = [(1, Settle.resolved
            ⟨true, "/x/o1.jpg", "/x/cat.jpg", [],
             some "/outputs/o1.jpg", some "/uploads/cat.jpg"⟩),
         (2, Settle.resolved
            ⟨true, "/x/o2.jpg", "/x/dog.jpg", [],
             some "/outputs/o2.jpg", some "/uploads/dog.jpg"⟩)]
  ∧ (run [Op.send ⟨1, "cat.jpg", none, "o"⟩,
          Op.send ⟨2, "dog.jpg", none, "o"⟩,
          Op.result (some ⟨true, "/x/o1.jpg", "/x/cat.jpg", [], none, none⟩),
          Op.result (some ⟨true, "/x/o2.jpg", "/x/dog.jpg", [], none, none⟩)]
        readyIdle).queue = [] := by
  have h := sendPrediction_fifo
    [Op.send ⟨1, "cat.jpg", none, "o"⟩,
     Op.send ⟨2, "dog.jpg", none, "o"⟩,
     Op.result (some ⟨true, "/x/o1.jpg", "/x/cat.jpg", [], none, none⟩),
     Op.result (some ⟨true, "/x/o2.jpg", "/x/dog.jpg", [], none, none⟩)]
    readyIdle (by decide) rfl rfl rfl rfl rfl (by decide)
  refine ⟨?_, h.2.2⟩
  rw [h.1]
  decide

/-! ### Claim C3: the 60-second timeout -/

lemma step_inv (j : Job) (o : Op) (s : ServerState)
    (ho : avoids j o = true)
    (h : pendingUnique j s ∨ resolvedGone j s) :
    pendingUnique j (step o s) ∨ resolvedGone j (step o s) := by
  cases o with
  | ready => exact h
  | errLine m => exact h
  | spawnErr => exact h
  | close c =>
    simp only [step]
    unfold handleClose
    split
    · exact h
    · exact h
  | send k =>
    simp [avoids] at ho
    have hkid : (k.id == j.id) = false := by
      simpa using ho.1
    have hkpath : (k.imagePath == j.imagePath) = false := by
      simpa using ho.2
    simp only [step]
    unfold sendPrediction
    split
    · exact h
    · have pq := processNextRequest_queue { s with queue := s.queue ++ [k] }
      rcases h with ⟨⟨q₁, q₂, hq, hsides⟩, hset⟩ | ⟨hsides, r, hr⟩
      · left
        refine ⟨⟨q₁, q₂ ++ [k], ?_, ?_⟩, ?_⟩
        · rw [pq.1]
          show s.queue ++ [k] = q₁ ++ j :: (q₂ ++ [k])
          rw [hq]
          simp
        · intro a ha
          rcases List.mem_append.mp ha with h1 | h2
          · exact hsides a (List.mem_append_left _ h1)
          · rcases List.mem_append.mp h2 with h3 | h4
            · exact hsides a (List.mem_append_right _ h3)
            · have hak : a = k := by simpa using h4
              rw [hak]
              exact ⟨hkid, hkpath⟩
        · rw [pq.2.1]
          exact hset
      · right
        refine ⟨?_, r, ?_⟩
        · intro a ha
          have ha' : a ∈ s.queue ++ [k] := by
            rw [pq.1] at ha
            exact ha
          rcases List.mem_append.mp ha' with h1 | h2
          · exact hsides a h1
          · have hak : a = k := by simpa using h2
            rw [hak]
            exact ⟨hkid, hkpath⟩
        · rw [pq.2.1]
          exact hr
  | timer k =>
    simp [avoids] at ho
    have hkid : (k.id == j.id) = false := by
      simpa using ho.1
    simp only [step]
    unfold fireTimeout
    split
    · rcases h with ⟨⟨q₁, q₂, hq, hsides⟩, hset⟩ | ⟨hsides, r, hr⟩
      · left
        have hpj : (fun r => r.imagePath == k.imagePath) j = false := by
          have : j.imagePath ≠ k.imagePath := fun e => ho.2 e.symm
          simpa using this
        obtain ⟨r₁, r₂, he, hsub⟩ :=
          removeFirst_mid (fun r => r.imagePath == k.imagePath) q₁ j q₂ hpj
        refine ⟨⟨r₁, r₂, ?_, ?_⟩, ?_⟩
        · show removeFirst _ s.queue = r₁ ++ j :: r₂
          rw [hq]
          exact he
        · intro a ha
          exact hsides a (hsub a ha)
        · exact hasSettle_append_single j.id k.id s.settles _ hkid hset
      · right
        refine ⟨?_, r, ?_⟩
        · intro a ha
          have ha' : a ∈ removeFirst
              (fun r => r.imagePath == k.imagePath) s.queue := ha
          exact hsides a (removeFirst_subset _ _ a ha')
        · exact firstSettle_append_of_some j.id s.settles _ _ hr
    · exact h
  | result r0 =>
    cases r0 with
    | none => exact h
    | some rr =>
      simp only [step]
      unfold processResult
      rcases hq0 : s.queue with _ | ⟨h0, rest⟩
      · rcases h with ⟨⟨q₁, q₂, hq, hsides⟩, hset⟩ | hrg
        · left
          exact ⟨⟨q₁, q₂, hq, hsides⟩, hset⟩
        · right
          exact hrg
      · have pq := processNextRequest_queue
          { s with
            queue := rest
            settles := s.settles ++ [(h0.id, Settle.resolved (rewriteUrls rr))]
            isProcessing := false }
        rcases h with ⟨⟨q₁, q₂, hq, hsides⟩, hset⟩ | ⟨hsides, r, hr⟩
        · rw [hq0] at hq
          rcases q₁ with _ | ⟨b, q₁t⟩
          · have hj0 : h0 = j ∧ rest = q₂ := by
              simpa using hq
            right
            refine ⟨?_, rewriteUrls rr, ?_⟩
            · intro a ha
              have ha' : a ∈ rest := by
                rw [pq.1] at ha
                exact ha
              rw [hj0.2] at ha'
              exact hsides a (by simpa using ha')
            · rw [pq.2.1]
              show firstSettle j.id
                  (s.settles ++ [(h0.id, Settle.resolved (rewriteUrls rr))])
                = some (Settle.resolved (rewriteUrls rr))
              rw [hj0.1]
              exact firstSettle_append_self j.id s.settles _ hset
          · have hb : h0 = b ∧ rest = q₁t ++ j :: q₂ := by
              simpa using hq
            left
            refine ⟨⟨q₁t, q₂, ?_, ?_⟩, ?_⟩
            · rw [pq.1]
              show rest = q₁t ++ j :: q₂
              exact hb.2
            · intro a ha
              rcases List.mem_append.mp ha with h1 | h2
              · exact hsides a (by simp [h1])
              · exact hsides a (by simp [h2])
            · rw [pq.2.1]
              have hbid : (h0.id == j.id) = false := by
                rw [hb.1]
                exact (hsides b (by simp)).1
              exact hasSettle_append_single j.id h0.id s.settles _ hbid hset
        · right
          rw [hq0] at hsides
          refine ⟨?_, r, ?_⟩
          · intro a ha
            have ha' : a ∈ rest := by
              rw [pq.1] at ha
              exact ha
            exact hsides a (List.mem_cons_of_mem h0 ha')
          · rw [pq.2.1]
            exact firstSettle_append_of_some j.id s.settles _ _ hr

lemma run_inv (j : Job) (ops : List Op) : ∀ s : ServerState,
    ops.all (avoids j) = true →
    pendingUnique j s ∨ resolvedGone j s →
    pendingUnique j (run ops s) ∨ resolvedGone j (run ops s) := by
  induction ops with
  | nil => intro s _ h; exact h
  | cons o t ih =>
    intro s hall h
    rw [List.all_cons, Bool.and_eq_true] at hall
    exact ih (step o s) hall.2 (step_inv j o s hall.1 h)

/-- Claim C3 (amended): for a job `j` pending in the queue whose image
path and handle id are not shared by any other queued job, after any
sequence of events whose submissions and timers avoid `j`'s id and image
path, when `j`'s own timer fires: if `j`'s handle has not been settled,
it is rejected with `Inference timeout` and `j` is gone from the queue;
if `j` was already resolved, the delivered outcome stays that resolution
(the late timer is harmless). -/
theorem timeout_unique_path (j : Job) (s : ServerState) (ops : List Op)
    (hinv : pendingUnique j s ∨ resolvedGone j s)
    (hops : ops.all (avoids j) = true) :
    (hasSettle j.id (run ops s).settles = false →
        firstSettle j.id (fireTimeout j (run ops s)).settles
          = some (Settle.rejected "Inference timeout")
      ∧ ∀ a ∈ (fireTimeout j (run ops s)).queue, (a.id == j.id) = false)
  ∧ (∀ r, firstSettle j.id (run ops s).settles = some (Settle.resolved r) →
        firstSettle j.id (fireTimeout j (run ops s)).settles
          = some (Settle.resolved r)) := by
  have hI := run_inv j ops s hops hinv
  constructor
  · intro hns
    rcases hI with ⟨⟨q₁, q₂, hq, hsides⟩, hset⟩ | ⟨hsides, r, hr⟩
    · have hpj : (j.imagePath == j.imagePath) = true := by simp
      have hany : (run ops s).queue.any
          (fun r => r.imagePath == j.imagePath) = true := by
        rw [hq]
        exact List.any_eq_true.mpr ⟨j, by simp, hpj⟩
      unfold fireTimeout
      rw [if_pos hany]
      constructor
      · exact firstSettle_append_self j.id _ _ hns
      · intro a ha
        have h1 : ∀ b ∈ q₁, (b.imagePath == j.imagePath) = false :=
          fun b hb => (hsides b (List.mem_append_left _ hb)).2
        have ha' : a ∈ removeFirst
            (fun r => r.imagePath == j.imagePath) (run ops s).queue := ha
        rw [hq, removeFirst_skip _ q₁ j q₂ h1 hpj] at ha'
        exact (hsides a ha').1
    · exfalso
      have hcontra : hasSettle j.id (run ops s).settles = true := by
        unfold firstSettle at hr
        rcases hf : (run ops s).settles.find? (fun e => e.1 == j.id)
            with _ | e
        · rw [hf] at hr
          simp at hr
        · refine List.any_eq_true.mpr
            ⟨e, List.mem_of_find?_eq_some hf, ?_⟩
          have := List.find?_some hf
          simpa using this
      rw [hcontra] at hns
      simp at hns
  · intro r hr0
    rcases hI with ⟨⟨q₁, q₂, hq, hsides⟩, hset⟩ | ⟨hsides, r', hr'⟩
    · have hnone := firstSettle_none_of_not_hasSettle j.id _ hset
      rw [hnone] at hr0
      simp at hr0
    · have hany : (run ops s).queue.any
          (fun r2 => r2.imagePath == j.imagePath) = false := by
        rw [List.any_eq_false]
        intro x hx
        have := (hsides x hx).2
        simp [this]
      unfold fireTimeout
      rw [if_neg (by simp [hany])]
      exact hr0

theorem timeout_unique_path_witness :
    firstSettle 7 (fireTimeout ⟨7, "solo.jpg", none, "o"⟩
        (run [] { readyIdle with
                  queue := [⟨7, "solo.jpg", none, "o"⟩]
                  isProcessing := true })).settles
      = some (Settle.rejected "Inference timeout") := by
  have h := timeout_unique_path ⟨7, "solo.jpg", none, "o"⟩
    { readyIdle with
      queue := [⟨7, "solo.jpg", none, "o"⟩]
      isProcessing := true } []
    (Or.inl ⟨⟨[], [], rfl, by intro a ha; simp at ha⟩, rfl⟩) rfl
  exact (h.1 rfl).1

/-- Counterexample to claim C3 as stated: in the schedule `cxTrace` —
jobs A and B share the image path `img.jpg`, both are enqueued on the
persistent path (no fallback call is made), A's result arrives, then both
60-second timers fire in order — job B is never resolved, yet no settle
call at all is made on B's handle: A's (never-cancelled) timer spliced B
out of the queue by image-path lookup, so B's own timer found no queue
entry and its rejection never ran.  B is absent from the queue and its
caller hangs with neither result nor timeout error, contradicting the
claim that an unresolved job's handle is rejected with a timeout error
within its timer's expiry. -/
theorem timeout_counterexample :
    (run cxTrace readyIdle).fallbackCalls = []
  ∧ hasSettle cxB.id (run cxTrace readyIdle).settles = false
  ∧ (run cxTrace readyIdle).queue = []
  ∧ (run cxTrace readyIdle).settles
      = [(cxA.id, Settle.resolved
            ⟨true, "/x/o1.jpg", "/x/img.jpg", [],
             some "/outputs/o1.jpg", some "/uploads/img.jpg"⟩),
         (cxA.id, Settle.rejected "Inference timeout")] := by
  decide

end SpaceGoogle
